import Mathlib

/-!
# WireGuard exporter: the Prometheus collector and the startup name map

A shallow embedding of `collector.go` (`New`, `Describe`, `Collect`) and of the
name-map loop of `cmd/wireguard_exporter/main.go`, together with the few library
operations those functions call: `wgtypes.Key.String` (standard base64),
`time.Time.IsZero` / `time.Time.Unix`, the `float64(int64)` conversion, map
indexing and assignment, `prometheus.NewInvalidMetric` and
`prometheus.MustNewConstMetric`.

A channel send `ch <- m` appends `m` to the list of values sent so far.  A Go
panic is an explicit exit status of the run.
-/

set_option autoImplicit false

namespace WireguardExporter

/-! ## Library values -/

/-- A Go `error` value, identified by its message. -/
abbrev GoError := String

/-- The type `wgtypes.Key`, a `[32]byte` array. -/
structure Key where
  bytes : List (Fin 256)
  size : bytes.length = 32
deriving DecidableEq

/-- The alphabet of `base64.StdEncoding`. -/
def encodeStd : List Char :=
  "ABCDEFGHIJKLMNOPQRSTUVWXYZabcdefghijklmnopqrstuvwxyz0123456789+/".toList

/-- The padding character of `base64.StdEncoding`. -/
def padChar : Char := '='

/-- The lookup `enc.encode[i]` for a six-bit index. -/
def encodeChar (i : Nat) : Char := encodeStd.getD i 'A'

/-- The loop and tail of `(*base64.Encoding).Encode` for the standard padded
encoding: three source bytes become four characters; a tail of one or two
bytes becomes two or three characters followed by padding. -/
def base64Encode : List (Fin 256) → List Char
  | [] => []
  | [a] =>
    let val := a.val * 65536
    [encodeChar (val / 262144 % 64), encodeChar (val / 4096 % 64), padChar, padChar]
  | [a, b] =>
    let val := a.val * 65536 + b.val * 256
    [encodeChar (val / 262144 % 64), encodeChar (val / 4096 % 64),
      encodeChar (val / 64 % 64), padChar]
  | a :: b :: c :: rest =>
    let val := a.val * 65536 + b.val * 256 + c.val
    encodeChar (val / 262144 % 64) :: encodeChar (val / 4096 % 64) ::
      encodeChar (val / 64 % 64) :: encodeChar (val % 64) :: base64Encode rest

/-- The method `wgtypes.Key.String`: the standard base64 text of the 32 bytes. -/
def Key.String (k : Key) : String := String.mk (base64Encode k.bytes)

/-- Reduction of an integer to the signed 64-bit range (two's complement). -/
def wrapInt64 (x : Int) : Int := (x + 2 ^ 63) % 2 ^ 64 - 2 ^ 63

/-- A `time.Time` as the collector reads it: `sec` is the number of seconds
since January 1, year 1 00:00:00 UTC, `nsec` the nanosecond offset. -/
structure Time where
  sec : Int
  nsec : Nat
deriving DecidableEq

/-- The constant `unixToInternal` of package `time`. -/
def unixToInternal : Int := (1969 * 365 + 1969 / 4 - 1969 / 100 + 1969 / 400) * 86400

/-- The constant `internalToUnix` of package `time`. -/
def internalToUnix : Int := -unixToInternal

/-- The method `time.Time.IsZero`. -/
def Time.IsZero (t : Time) : Bool := t.sec == 0 && t.nsec == 0

/-- The method `time.Time.Unix`. -/
def Time.Unix (t : Time) : Int := wrapInt64 (t.sec + internalToUnix)

/-- The zero value `time.Time{}`. -/
def Time.zero : Time := ⟨0, 0⟩

/-- The constructor `time.Unix(sec, 0)`. -/
def Time.ofUnix (sec : Int) : Time := ⟨wrapInt64 (sec + unixToInternal), 0⟩

/-- The least shift `e` with `a / 2 ^ e < 2 ^ 53`, searched with `fuel` steps. -/
def float64Shift : Nat → Nat → Nat
  | 0, _ => 0
  | fuel + 1, a => if a < 2 ^ 53 then 0 else float64Shift fuel (a / 2) + 1

/-- The conversion `float64(n)` of an `int64`: the nearest value with a 53-bit
significand, ties to the even significand.  The result of converting an
integer is itself an integer, and is represented by that integer. -/
def float64OfInt64 (n : Int) : Int :=
  let a := n.natAbs
  if a < 2 ^ 53 then n
  else
    let e := float64Shift 64 a
    let q := a / 2 ^ e
    let r := a % 2 ^ e
    let half := 2 ^ (e - 1)
    let q' := if half < r ∨ (r = half ∧ q % 2 = 1) then q + 1 else q
    n.sign * ((q' * 2 ^ e : Nat) : Int)

/-- A Go `map[string]string` that is not nil, as its list of entries. -/
abbrev GoMap := List (String × String)

/-- The index expression `m[k]`: the stored value, or the zero value `""`. -/
def GoMap.index (m : GoMap) (k : String) : String :=
  match m.lookup k with
  | some v => v
  | none => ""

/-- The assignment `m[k] = v`: replaces the entry of `k` or adds one. -/
def GoMap.assign : GoMap → String → String → GoMap
  | [], k, v => [(k, v)]
  | (k', v') :: rest, k, v =>
    if k' = k then (k, v) :: rest else (k', v') :: GoMap.assign rest k v

/-- The builtin `len(m)`. -/
def GoMap.len (m : GoMap) : Nat := m.length

/-- A `wgtypes.Peer`, with the fields the exporter reads. -/
structure Peer where
  PublicKey : Key
  ReceiveBytes : Int
  TransmitBytes : Int
  LastHandshakeTime : Time
deriving DecidableEq

/-- A `wgtypes.Device`, with the fields the exporter reads. -/
structure Device where
  Name : String
  Peers : List Peer
deriving DecidableEq

/-- The pair returned by `(*wgctrl.Client).Device`: a device pointer (`none` is
nil) and an error (`none` is nil). -/
structure DeviceResult where
  device : Option Device
  err : Option GoError
deriving DecidableEq

/-- A failed lookup: `Client.Device` returns `nil, err`. -/
def DeviceResult.failure (e : GoError) : DeviceResult := ⟨none, some e⟩

/-- A successful lookup: `Client.Device` returns `d, nil`. -/
def DeviceResult.success (d : Device) : DeviceResult := ⟨some d, none⟩

/-! ## Prometheus values -/

/-- A `prometheus.Desc` built by `NewDesc` without constant labels. -/
structure Desc where
  fqName : String
  help : String
  variableLabels : List String
deriving DecidableEq

/-- The function `prometheus.NewDesc` with nil constant labels. -/
def NewDesc (fqName help : String) (variableLabels : List String) : Desc :=
  ⟨fqName, help, variableLabels⟩

/-- The type `prometheus.ValueType`, for the two kinds the collector uses. -/
inductive ValueType where
  | CounterValue
  | GaugeValue
deriving DecidableEq

/-- A `prometheus.Metric` as sent by the collector: an invalid-metric marker
carrying an error, or a constant sample. -/
inductive Metric where
  | invalid (desc : Desc) (err : GoError)
  | const (desc : Desc) (valueType : ValueType) (value : Int) (labelValues : List String)
deriving DecidableEq

/-- The function `prometheus.NewInvalidMetric`. -/
def NewInvalidMetric (desc : Desc) (err : GoError) : Metric := Metric.invalid desc err

/-- The function `prometheus.MustNewConstMetric`: `none` is the panic raised
when the number of label values differs from the descriptor's label count. -/
def MustNewConstMetric (desc : Desc) (valueType : ValueType) (value : Int)
    (labelValues : List String) : Option Metric :=
  if labelValues.length = desc.variableLabels.length then
    some (Metric.const desc valueType value labelValues)
  else none

/-- The descriptor of a metric. -/
def Metric.desc : Metric → Desc
  | Metric.invalid d _ => d
  | Metric.const d _ _ _ => d

/-- Whether a metric is an invalid-metric marker. -/
def Metric.isInvalid : Metric → Bool
  | Metric.invalid _ _ => true
  | Metric.const _ _ _ _ => false

/-- The label values of a sample (none for a marker). -/
def Metric.labelValues : Metric → List String
  | Metric.invalid _ _ => []
  | Metric.const _ _ _ ls => ls

/-- The value of a sample (none for a marker). -/
def Metric.value : Metric → Option Int
  | Metric.invalid _ _ => none
  | Metric.const _ _ v _ => some v

/-! ## collector.go -/

/-- The constant `deviceName`. -/
def deviceName : String := "ns1-wg"

/-- The struct `collector`; the client is represented by the result of its
`Device(deviceName)` call, passed to `Collect`. -/
structure collector where
  PeerReceiveBytes : Desc
  PeerTransmitBytes : Desc
  PeerLastHandshake : Desc
  peerNames : GoMap
deriving DecidableEq

/-- The function `New`; the argument `none` is a nil map. -/
def New (peerNames : Option GoMap) : collector :=
  let peerNames := match peerNames with
    | none => ([] : GoMap)
    | some m => m
  let labels := ["device", "public_key", "peer_name"]
  { PeerReceiveBytes := NewDesc "wireguard_peer_receive_bytes_total"
      "Number of bytes received from a given peer." labels
    PeerTransmitBytes := NewDesc "wireguard_peer_transmit_bytes_total"
      "Number of bytes transmitted to a given peer." labels
    PeerLastHandshake := NewDesc "wireguard_peer_last_handshake_seconds"
      "UNIX timestamp for the last handshake with a given peer." labels
    peerNames := peerNames }

/-- The method `Describe`: the collector after the call and the descriptors
sent on the channel. -/
def Describe (c : collector) : collector × List Desc :=
  let ds := [c.PeerReceiveBytes, c.PeerTransmitBytes, c.PeerLastHandshake]
  (c, ds.foldl (fun ch d => ch ++ [d]) [])

/-- How a call ended. -/
inductive Exit where
  | returned
  | panicked
deriving DecidableEq

/-- The observable result of one `Collect` call: the collector afterwards, the
metrics sent on the channel in order, and how the call ended. -/
structure Run where
  self : collector
  sent : List Metric
  exit : Exit
deriving DecidableEq

/-- The body of the loop `for _, peer := range device.Peers` over the peers
still to visit, given the metrics sent so far. -/
def collectPeers (c : collector) (device : Device) : List Peer → List Metric → List Metric × Exit
  | [], ch => (ch, Exit.returned)
  | peer :: rest, ch =>
    let publicKey := peer.PublicKey.String
    let labels := [device.Name, publicKey, c.peerNames.index publicKey]
    match MustNewConstMetric c.PeerReceiveBytes ValueType.CounterValue
        (float64OfInt64 peer.ReceiveBytes) labels with
    | none => (ch, Exit.panicked)
    | some rx =>
      let ch := ch ++ [rx]
      match MustNewConstMetric c.PeerTransmitBytes ValueType.CounterValue
          (float64OfInt64 peer.TransmitBytes) labels with
      | none => (ch, Exit.panicked)
      | some tx =>
        let ch := ch ++ [tx]
        let last : Int :=
          if !peer.LastHandshakeTime.IsZero then float64OfInt64 peer.LastHandshakeTime.Unix
          else 0
        match MustNewConstMetric c.PeerLastHandshake ValueType.GaugeValue last labels with
        | none => (ch, Exit.panicked)
        | some hs => collectPeers c device rest (ch ++ [hs])

/-- The method `Collect`, run against the result `q` of
`c.client.Device(deviceName)`.  The error branch sends three markers and has
no `return`, so control continues with `device.Peers`; reading it through a
nil device pointer panics. -/
def Collect (c : collector) (q : DeviceResult) : Run :=
  let ch : List Metric :=
    match q.err with
    | some err =>
      [NewInvalidMetric c.PeerReceiveBytes err,
       NewInvalidMetric c.PeerTransmitBytes err,
       NewInvalidMetric c.PeerLastHandshake err]
    | none => []
  match q.device with
  | none => ⟨c, ch, Exit.panicked⟩
  | some device =>
    let r := collectPeers c device device.Peers ch
    ⟨c, r.1, r.2⟩

/-! ## cmd/wireguard_exporter/main.go -/

/-- The loop of `main` that fills `peerNames`: the state is the map and
`count`; `fmt.Sprintf("Cluster-%d", count)` is the decimal rendering. -/
def namePeers : List Peer → GoMap × Nat → GoMap × Nat
  | [], s => s
  | peer :: rest, (peerNames, count) =>
    namePeers rest
      (peerNames.assign peer.PublicKey.String ("Cluster-" ++ toString count), count + 1)

/-- The name map `main` passes to `New`, from the peers of the initial lookup. -/
def buildPeerNames (peers : List Peer) : GoMap := (namePeers peers ([], 0)).1

/-! ## Reference definitions used to state the results -/

/-- The label values computed once per peer in the loop of `Collect`. -/
def peerLabels (c : collector) (device : Device) (peer : Peer) : List String :=
  [device.Name, peer.PublicKey.String, c.peerNames.index peer.PublicKey.String]

/-- The value of the last-handshake gauge of a peer: `0` for the zero time,
otherwise the converted UNIX seconds. -/
def handshakeValue (peer : Peer) : Int :=
  if peer.LastHandshakeTime.IsZero then 0 else float64OfInt64 peer.LastHandshakeTime.Unix

/-- The three samples of one peer, in emission order. -/
def peerSamples (c : collector) (device : Device) (peer : Peer) : List Metric :=
  [Metric.const c.PeerReceiveBytes ValueType.CounterValue
      (float64OfInt64 peer.ReceiveBytes) (peerLabels c device peer),
   Metric.const c.PeerTransmitBytes ValueType.CounterValue
      (float64OfInt64 peer.TransmitBytes) (peerLabels c device peer),
   Metric.const c.PeerLastHandshake ValueType.GaugeValue
      (handshakeValue peer) (peerLabels c device peer)]

/-- The three invalid-metric markers of a failed query, in emission order. -/
def errorMarkers (c : collector) (e : GoError) : List Metric :=
  [Metric.invalid c.PeerReceiveBytes e, Metric.invalid c.PeerTransmitBytes e,
   Metric.invalid c.PeerLastHandshake e]

/-- The label schema shared by the three descriptors. -/
def labelSchema : List String := ["device", "public_key", "peer_name"]

/-- The receive-bytes descriptor built by `New`. -/
def descReceive : Desc :=
  ⟨"wireguard_peer_receive_bytes_total", "Number of bytes received from a given peer.",
    labelSchema⟩

/-- The transmit-bytes descriptor built by `New`. -/
def descTransmit : Desc :=
  ⟨"wireguard_peer_transmit_bytes_total", "Number of bytes transmitted to a given peer.",
    labelSchema⟩

/-- The last-handshake descriptor built by `New`. -/
def descHandshake : Desc :=
  ⟨"wireguard_peer_last_handshake_seconds",
    "UNIX timestamp for the last handshake with a given peer.", labelSchema⟩

/-- Scenario key P1: thirty-two bytes `0x01`. -/
def keyP1 : Key := ⟨List.replicate 32 1, rfl⟩

/-- Scenario key P2: thirty-two bytes `0x02`. -/
def keyP2 : Key := ⟨List.replicate 32 2, rfl⟩

/-- Scenario peer P1: rx 100, tx 200, never handshaked. -/
def peerP1 : Peer := ⟨keyP1, 100, 200, Time.zero⟩

/-- Scenario peer P2: rx 0, tx 0, handshake at UNIX time 1700000000. -/
def peerP2 : Peer := ⟨keyP2, 0, 0, Time.ofUnix 1700000000⟩

/-- Scenario device `ns1-wg` with peers P1, P2. -/
def scenarioDevice : Device := ⟨"ns1-wg", [peerP1, peerP2]⟩

/-- Scenario name map. -/
def scenarioNames : GoMap := [(keyP1.String, "Cluster-0"), (keyP2.String, "Cluster-1")]

/-- The entries the naming loop adds for `peers`, counting from `count`. -/
def namedEntries : List Peer → Nat → GoMap
  | [], _ => []
  | p :: ps, count => (p.PublicKey.String, "Cluster-" ++ toString count) :: namedEntries ps (count + 1)

/-! ## Auxiliary lemmas -/

theorem New_receive (m : Option GoMap) : (New m).PeerReceiveBytes = descReceive := by
  cases m <;> rfl

theorem New_transmit (m : Option GoMap) : (New m).PeerTransmitBytes = descTransmit := by
  cases m <;> rfl

theorem New_handshake (m : Option GoMap) : (New m).PeerLastHandshake = descHandshake := by
  cases m <;> rfl

theorem peerSamples_length (c : collector) (d : Device) (p : Peer) :
    (peerSamples c d p).length = 3 := rfl

/-- With three-label descriptors the loop never panics and appends the three
samples of every peer in order. -/
theorem collectPeers_eq (c : collector) (d : Device)
    (h1 : c.PeerReceiveBytes.variableLabels.length = 3)
    (h2 : c.PeerTransmitBytes.variableLabels.length = 3)
    (h3 : c.PeerLastHandshake.variableLabels.length = 3) :
    ∀ (ps : List Peer) (ch : List Metric),
      collectPeers c d ps ch = (ch ++ ps.flatMap (peerSamples c d), Exit.returned) := by
  intro ps
  induction ps with
  | nil => intro ch; simp [collectPeers]
  | cons p rest ih =>
    intro ch
    have hv : (if (!p.LastHandshakeTime.IsZero) = true
        then float64OfInt64 p.LastHandshakeTime.Unix else 0) = handshakeValue p := by
      unfold handshakeValue
      cases p.LastHandshakeTime.IsZero <;> simp
    simp only [collectPeers, MustNewConstMetric, List.length_cons, List.length_nil, h1, h2, h3,
      Nat.reduceAdd, if_true, ih, hv]
    simp [peerSamples, peerLabels, List.flatMap_cons]

/-- The run of `Collect` for a collector built by `New`, for any query result. -/
theorem Collect_New (m : Option GoMap) (q : DeviceResult) :
    Collect (New m) q =
      match q.device with
      | none => ⟨New m, (match q.err with | some e => errorMarkers (New m) e | none => []),
          Exit.panicked⟩
      | some d => ⟨New m, (match q.err with | some e => errorMarkers (New m) e | none => [])
          ++ d.Peers.flatMap (peerSamples (New m) d), Exit.returned⟩ := by
  have h1 : (New m).PeerReceiveBytes.variableLabels.length = 3 := by rw [New_receive]; rfl
  have h2 : (New m).PeerTransmitBytes.variableLabels.length = 3 := by rw [New_transmit]; rfl
  have h3 : (New m).PeerLastHandshake.variableLabels.length = 3 := by rw [New_handshake]; rfl
  rcases q with ⟨dev, err⟩
  cases dev with
  | none => cases err <;> rfl
  | some d =>
    cases err with
    | none => simp [Collect, collectPeers_eq _ _ h1 h2 h3]
    | some e => simp [Collect, collectPeers_eq _ _ h1 h2 h3, errorMarkers, NewInvalidMetric]

theorem Collect_New_success (m : Option GoMap) (d : Device) :
    Collect (New m) (DeviceResult.success d) =
      ⟨New m, d.Peers.flatMap (peerSamples (New m) d), Exit.returned⟩ := by
  rw [Collect_New]; simp [DeviceResult.success]

theorem Collect_New_failure (m : Option GoMap) (e : GoError) :
    Collect (New m) (DeviceResult.failure e) =
      ⟨New m, errorMarkers (New m) e, Exit.panicked⟩ := by
  rw [Collect_New]; simp [DeviceResult.failure]

/-- Indexing into a concatenation of blocks of length three. -/
theorem getElem?_flatMap_three {α β : Type} (f : α → List β) (hf : ∀ a, (f a).length = 3) :
    ∀ (l : List α) (i j : Nat), j < 3 →
      (l.flatMap f)[3 * i + j]? = (l[i]?).bind (fun a => (f a)[j]?) := by
  intro l
  induction l with
  | nil => intro i j _; simp
  | cons a rest ih =>
    intro i j hj
    cases i with
    | zero =>
      simp only [List.flatMap_cons, Nat.mul_zero, Nat.zero_add, List.getElem?_cons_zero,
        Option.some_bind]
      rw [List.getElem?_append_left (by rw [hf]; exact hj)]
    | succ i =>
      simp only [List.flatMap_cons, List.getElem?_cons_succ]
      rw [List.getElem?_append_right (by rw [hf]; omega)]
      have : 3 * (i + 1) + j - (f a).length = 3 * i + j := by rw [hf]; omega
      rw [this, ih i j hj]

theorem length_flatMap_three {α β : Type} (f : α → List β) (hf : ∀ a, (f a).length = 3)
    (l : List α) : (l.flatMap f).length = 3 * l.length := by
  induction l with
  | nil => simp
  | cons a rest ih => simp [List.flatMap_cons, hf, ih]; omega

set_option maxRecDepth 100000 in
theorem indexOf_encodeChar : ∀ i, i < 64 → encodeStd.indexOf (encodeChar i) = i := by
  decide

set_option maxRecDepth 100000 in
theorem encodeChar_ne_pad : ∀ i, i < 64 → encodeChar i ≠ padChar := by
  decide

theorem encodeChar_inj {i j : Nat} (hi : i < 64) (hj : j < 64)
    (h : encodeChar i = encodeChar j) : i = j := by
  rw [← indexOf_encodeChar i hi, ← indexOf_encodeChar j hj, h]

theorem encodeChar_mod_inj {x y : Nat} (h : encodeChar (x % 64) = encodeChar (y % 64)) :
    x % 64 = y % 64 :=
  encodeChar_inj (Nat.mod_lt _ (by decide)) (Nat.mod_lt _ (by decide)) h

theorem encodeChar_mod_ne_pad (x : Nat) : encodeChar (x % 64) ≠ padChar :=
  encodeChar_ne_pad _ (Nat.mod_lt _ (by decide))

theorem pad_ne_encodeChar_mod (x : Nat) : padChar ≠ encodeChar (x % 64) :=
  fun h => encodeChar_mod_ne_pad x h.symm

theorem base64Encode_injective :
    ∀ (xs ys : List (Fin 256)), base64Encode xs = base64Encode ys → xs = ys := by
  intro xs
  induction xs using base64Encode.induct with
  | case1 =>
    intro ys h
    rcases ys with _ | ⟨a', _ | ⟨b', _ | ⟨c', rest'⟩⟩⟩ <;> simp [base64Encode] at h
    rfl
  | case2 a =>
    intro ys h
    rcases ys with _ | ⟨a', _ | ⟨b', _ | ⟨c', rest'⟩⟩⟩ <;> simp only [base64Encode] at h
    · simp at h
    · simp only [List.cons.injEq, and_true] at h
      have h1 := encodeChar_mod_inj h.1
      have h2 := encodeChar_mod_inj h.2
      have : a.val = a'.val := by omega
      simp [Fin.ext this]
    · simp only [List.cons.injEq, and_true] at h
      exact absurd h.2.2 (pad_ne_encodeChar_mod _)
    · simp only [List.cons.injEq] at h
      exact absurd h.2.2.1 (pad_ne_encodeChar_mod _)
  | case3 a b =>
    intro ys h
    rcases ys with _ | ⟨a', _ | ⟨b', _ | ⟨c', rest'⟩⟩⟩ <;> simp only [base64Encode] at h
    · simp at h
    · simp only [List.cons.injEq, and_true] at h
      exact absurd h.2.2 (encodeChar_mod_ne_pad _)
    · simp only [List.cons.injEq, and_true] at h
      have h1 := encodeChar_mod_inj h.1
      have h2 := encodeChar_mod_inj h.2.1
      have h3 := encodeChar_mod_inj h.2.2
      have ha : a.val = a'.val := by omega
      have hb : b.val = b'.val := by omega
      simp [Fin.ext ha, Fin.ext hb]
    · simp only [List.cons.injEq] at h
      exact absurd h.2.2.2.1 (pad_ne_encodeChar_mod _)
  | case4 a b c rest ih =>
    intro ys h
    rcases ys with _ | ⟨a', _ | ⟨b', _ | ⟨c', rest'⟩⟩⟩ <;> simp only [base64Encode] at h
    · simp at h
    · simp only [List.cons.injEq] at h
      exact absurd h.2.2.1 (encodeChar_mod_ne_pad _)
    · simp only [List.cons.injEq] at h
      exact absurd h.2.2.2.1 (encodeChar_mod_ne_pad _)
    · simp only [List.cons.injEq] at h
      have h1 := encodeChar_mod_inj h.1
      have h2 := encodeChar_mod_inj h.2.1
      have h3 := encodeChar_mod_inj h.2.2.1
      have h4 := encodeChar_mod_inj h.2.2.2.1
      have ha : a.val = a'.val := by omega
      have hb : b.val = b'.val := by omega
      have hc : c.val = c'.val := by omega
      have hr := ih rest' h.2.2.2.2
      simp [Fin.ext ha, Fin.ext hb, Fin.ext hc, hr]

theorem Key.String_injective (k k' : Key) (h : k.String = k'.String) : k = k' := by
  rcases k with ⟨b, hb⟩
  rcases k' with ⟨b', hb'⟩
  have h' : base64Encode b = base64Encode b' := congrArg String.data h
  have := base64Encode_injective _ _ h'
  subst this
  rfl

theorem namedEntries_keys (ps : List Peer) (c : Nat) :
    (namedEntries ps c).map Prod.fst = ps.map (fun p => p.PublicKey.String) := by
  induction ps generalizing c with
  | nil => rfl
  | cons p ps ih => simp [namedEntries, ih]

theorem assign_fresh (m : GoMap) (k v : String) (h : k ∉ m.map Prod.fst) :
    m.assign k v = m ++ [(k, v)] := by
  induction m with
  | nil => rfl
  | cons kv rest ih =>
    rcases kv with ⟨k', v'⟩
    simp only [List.map_cons, List.mem_cons, not_or] at h
    have hne : ¬ k' = k := fun e => h.1 e.symm
    simp [GoMap.assign, hne, ih h.2]

theorem namePeers_eq (ps : List Peer) :
    ∀ (m : GoMap) (c : Nat),
      (ps.map (fun p => p.PublicKey.String)).Nodup →
      (∀ p ∈ ps, p.PublicKey.String ∉ m.map Prod.fst) →
      namePeers ps (m, c) = (m ++ namedEntries ps c, c + ps.length) := by
  induction ps with
  | nil => intro m c _ _; simp [namePeers, namedEntries]
  | cons p ps ih =>
    intro m c hnd hfresh
    simp only [List.map_cons, List.nodup_cons] at hnd
    have hp : p.PublicKey.String ∉ m.map Prod.fst := hfresh p (List.mem_cons_self _ _)
    simp only [namePeers, assign_fresh m _ _ hp]
    rw [ih _ _ hnd.2]
    · simp [namedEntries]; omega
    · intro q hq
      simp only [List.map_append, List.map_cons, List.map_nil, List.mem_append,
        List.mem_singleton, not_or]
      refine ⟨hfresh q (List.mem_cons_of_mem _ hq), ?_⟩
      intro e
      exact hnd.1 (e ▸ List.mem_map_of_mem _ hq)

theorem lookup_namedEntries (ps : List Peer) :
    ∀ (c i : Nat) (p : Peer),
      (ps.map (fun p => p.PublicKey.String)).Nodup → ps[i]? = some p →
      (namedEntries ps c).lookup p.PublicKey.String = some ("Cluster-" ++ toString (c + i)) := by
  induction ps with
  | nil => intro c i p _ h; simp at h
  | cons q ps ih =>
    intro c i p hnd h
    simp only [List.map_cons, List.nodup_cons] at hnd
    cases i with
    | zero =>
      simp only [List.getElem?_cons_zero, Option.some.injEq] at h
      subst h
      simp [namedEntries, List.lookup]
    | succ i =>
      simp only [List.getElem?_cons_succ] at h
      have hmem : p ∈ ps := List.getElem?_mem h
      have hne : ¬ p.PublicKey.String = q.PublicKey.String := by
        intro e
        exact hnd.1 (e ▸ List.mem_map_of_mem _ hmem)
      have hb : (p.PublicKey.String == q.PublicKey.String) = false := by simpa using hne
      simp only [namedEntries, List.lookup, hb]
      rw [ih (c + 1) i p hnd.2 h]
      have : c + 1 + i = c + (i + 1) := by omega
      rw [this]

theorem nodup_keyStrings (ps : List Peer) (h : (ps.map (fun p => p.PublicKey)).Nodup) :
    (ps.map (fun p => p.PublicKey.String)).Nodup := by
  have : ps.map (fun p => p.PublicKey.String) = (ps.map (fun p => p.PublicKey)).map Key.String := by
    simp
  rw [this]
  exact List.Nodup.map (fun a b hab => Key.String_injective a b hab) h

theorem buildPeerNames_eq (ps : List Peer) (h : (ps.map (fun p => p.PublicKey)).Nodup) :
    buildPeerNames ps = namedEntries ps 0 := by
  unfold buildPeerNames
  rw [namePeers_eq ps [] 0 (nodup_keyStrings ps h) (by simp)]
  simp

theorem float64OfInt64_exact (n : Int) (h : n.natAbs ≤ 2 ^ 53) : float64OfInt64 n = n := by
  rcases Nat.lt_or_ge n.natAbs (2 ^ 53) with hlt | hge
  · unfold float64OfInt64
    simp only [hlt, if_true]
  · have he : n.natAbs = 2 ^ 53 := Nat.le_antisymm h hge
    rcases Int.natAbs_eq n with hn | hn
    · rw [hn, he]; decide
    · rw [hn, he]; decide

theorem sent_getElem? (m : Option GoMap) (d : Device) (i j : Nat) (p : Peer)
    (hp : d.Peers[i]? = some p) (hj : j < 3) :
    (Collect (New m) (DeviceResult.success d)).sent[3 * i + j]? =
      (peerSamples (New m) d p)[j]? := by
  rw [Collect_New_success]
  show (d.Peers.flatMap (peerSamples (New m) d))[3 * i + j]? = _
  rw [getElem?_flatMap_three _ (peerSamples_length (New m) d) d.Peers i j hj, hp]
  rfl

theorem mem_sent_success (m : Option GoMap) (d : Device) (x : Metric)
    (hx : x ∈ (Collect (New m) (DeviceResult.success d)).sent) :
    ∃ p ∈ d.Peers, x ∈ peerSamples (New m) d p := by
  rw [Collect_New_success] at hx
  simpa [List.mem_flatMap] using hx

/-! ## Results -/

/-- C1 (code as written): for every collector built by `New` and every failed
device query `nil, e`, `Collect` sends exactly the three invalid-metric
markers (receive bytes, transmit bytes, last handshake), each carrying `e`, and
no peer sample; it then does not return: the missing `return` lets control
reach `device.Peers` on the nil device, and the call ends in a panic. -/
theorem collect_failure_sends_markers_then_panics (m : Option GoMap) (e : GoError) :
    Collect (New m) (DeviceResult.failure e) =
      ⟨New m,
       [Metric.invalid descReceive e, Metric.invalid descTransmit e,
        Metric.invalid descHandshake e],
       Exit.panicked⟩ ∧
    (Collect (New m) (DeviceResult.failure e)).exit ≠ Exit.returned := by
  rw [Collect_New_failure]
  simp [errorMarkers, New_receive, New_transmit, New_handshake]

/-- C2 (counterexample): a peer whose receive counter is `2 ^ 53 + 1` gets a
receive-bytes sample of value `2 ^ 53`, so the output is not the three samples
with value `ReceiveBytes`, whatever the gauge value. -/
theorem collect_large_counter_sample_is_rounded :
    ((Collect (New none)
        (DeviceResult.success ⟨"ns1-wg", [⟨keyP1, 9007199254740993, 0, Time.zero⟩]⟩)).sent[0]?
      = some (Metric.const descReceive ValueType.CounterValue 9007199254740992
          ["ns1-wg", keyP1.String, ""])) ∧
    ¬ ∃ g : Int,
      (Collect (New none)
        (DeviceResult.success ⟨"ns1-wg", [⟨keyP1, 9007199254740993, 0, Time.zero⟩]⟩)).sent
      = [Metric.const descReceive ValueType.CounterValue 9007199254740993
            ["ns1-wg", keyP1.String, ""],
         Metric.const descTransmit ValueType.CounterValue 0 ["ns1-wg", keyP1.String, ""],
         Metric.const descHandshake ValueType.GaugeValue g ["ns1-wg", keyP1.String, ""]] := by
  constructor
  · decide
  · rintro ⟨g, hg⟩
    have h0 : ((Collect (New none) (DeviceResult.success
        ⟨"ns1-wg", [⟨keyP1, 9007199254740993, 0, Time.zero⟩]⟩)).sent[0]?).bind Metric.value
        = some 9007199254740993 := by rw [hg]; rfl
    revert h0
    decide

/-- C2 (amended): for every collector built by `New` and every successful
query returning device `d`, `Collect` returns normally and its output is
exactly the concatenation, in snapshot order, of three samples per peer: a
counter on the receive-bytes descriptor with value `float64(ReceiveBytes)`, a
counter on the transmit-bytes descriptor with value `float64(TransmitBytes)`,
a gauge on the last-handshake descriptor, all with label values (device name,
key string, name-map entry of that string); `float64(n)` is `n` itself
whenever `|n| ≤ 2 ^ 53`; and the scenario of the specification yields its six
samples. -/
theorem collect_success_sends_peer_samples_in_order (m : Option GoMap) (d : Device) :
    Collect (New m) (DeviceResult.success d) =
      ⟨New m,
       d.Peers.flatMap (fun p =>
         [Metric.const descReceive ValueType.CounterValue (float64OfInt64 p.ReceiveBytes)
            [d.Name, p.PublicKey.String, (New m).peerNames.index p.PublicKey.String],
          Metric.const descTransmit ValueType.CounterValue (float64OfInt64 p.TransmitBytes)
            [d.Name, p.PublicKey.String, (New m).peerNames.index p.PublicKey.String],
          Metric.const descHandshake ValueType.GaugeValue
            (if p.LastHandshakeTime.IsZero then 0
              else float64OfInt64 p.LastHandshakeTime.Unix)
            [d.Name, p.PublicKey.String, (New m).peerNames.index p.PublicKey.String]]),
       Exit.returned⟩ ∧
    (∀ n : Int, n.natAbs ≤ 2 ^ 53 → float64OfInt64 n = n) ∧
    (Collect (New (some scenarioNames)) (DeviceResult.success scenarioDevice)).sent =
      [Metric.const descReceive ValueType.CounterValue 100
          ["ns1-wg", keyP1.String, "Cluster-0"],
       Metric.const descTransmit ValueType.CounterValue 200
          ["ns1-wg", keyP1.String, "Cluster-0"],
       Metric.const descHandshake ValueType.GaugeValue 0
          ["ns1-wg", keyP1.String, "Cluster-0"],
       Metric.const descReceive ValueType.CounterValue 0
          ["ns1-wg", keyP2.String, "Cluster-1"],
       Metric.const descTransmit ValueType.CounterValue 0
          ["ns1-wg", keyP2.String, "Cluster-1"],
       Metric.const descHandshake ValueType.GaugeValue 1700000000
          ["ns1-wg", keyP2.String, "Cluster-1"]] := by
  refine ⟨?_, float64OfInt64_exact, ?_⟩
  · rw [Collect_New_success]
    delta peerSamples peerLabels handshakeValue
    simp only [New_receive, New_transmit, New_handshake]
  · decide

/-- C2 (witness): the general statement at the scenario device, and exactness
of the conversion at the value 100. -/
theorem collect_success_sends_peer_samples_in_order_witness :
    (Collect (New (some scenarioNames)) (DeviceResult.success scenarioDevice)).exit
      = Exit.returned ∧ float64OfInt64 100 = 100 :=
  ⟨by rw [(collect_success_sends_peer_samples_in_order (some scenarioNames) scenarioDevice).1],
   (collect_success_sends_peer_samples_in_order none scenarioDevice).2.1 100 (by decide)⟩

/-- C3: for every device snapshot with `N` peers (also `N = 0`), a successful
`Collect` of a collector built by `New` returns normally having sent exactly
`3 * N` samples and no invalid-metric marker. -/
theorem collect_success_sends_three_samples_per_peer (m : Option GoMap) (d : Device) :
    (Collect (New m) (DeviceResult.success d)).sent.length = 3 * d.Peers.length ∧
    (Collect (New m) (DeviceResult.success d)).sent.countP (fun x => !x.isInvalid)
      = 3 * d.Peers.length ∧
    (Collect (New m) (DeviceResult.success d)).sent.countP Metric.isInvalid = 0 ∧
    (Collect (New m) (DeviceResult.success d)).exit = Exit.returned := by
  have hall : ∀ x ∈ (Collect (New m) (DeviceResult.success d)).sent, x.isInvalid = false := by
    intro x hx
    obtain ⟨p, _, hxp⟩ := mem_sent_success m d x hx
    simp only [peerSamples, List.mem_cons, List.mem_singleton, List.not_mem_nil, or_false] at hxp
    rcases hxp with h | h | h <;> rw [h] <;> rfl
  have hlen : (Collect (New m) (DeviceResult.success d)).sent.length = 3 * d.Peers.length := by
    rw [Collect_New_success]
    exact length_flatMap_three _ (peerSamples_length (New m) d) d.Peers
  refine ⟨hlen, ?_, ?_, ?_⟩
  · rw [← hlen, List.countP_eq_length]
    intro x hx
    simp [hall x hx]
  · rw [List.countP_eq_zero]
    intro x hx
    simp [hall x hx]
  · rw [Collect_New_success]

/-- C4 (counterexample): a peer whose handshake is recorded at UNIX time
`2 ^ 53 + 1` gets a last-handshake gauge of value `2 ^ 53`, not `2 ^ 53 + 1`. -/
theorem handshake_gauge_rounds_above_two_pow_53 :
    (Time.ofUnix 9007199254740993).IsZero = false ∧
    (Time.ofUnix 9007199254740993).Unix = 9007199254740993 ∧
    (Collect (New none) (DeviceResult.success
        ⟨"ns1-wg", [⟨keyP1, 0, 0, Time.ofUnix 9007199254740993⟩]⟩)).sent[2]?
      = some (Metric.const descHandshake ValueType.GaugeValue 9007199254740992
          ["ns1-wg", keyP1.String, ""]) ∧
    ((Collect (New none) (DeviceResult.success
        ⟨"ns1-wg", [⟨keyP1, 0, 0, Time.ofUnix 9007199254740993⟩]⟩)).sent[2]?).bind Metric.value
      ≠ some 9007199254740993 := by
  decide

/-- C4 (amended): for every peer of a successful snapshot with a recorded
handshake (non-zero time) at UNIX time `T` with `|T| ≤ 2 ^ 53`, the third
sample `Collect` sends for that peer is the last-handshake gauge with value
exactly `T`. -/
theorem handshake_gauge_exact_within_two_pow_53 (m : Option GoMap) (d : Device) (i : Nat)
    (p : Peer) (T : Int) (hp : d.Peers[i]? = some p)
    (hset : p.LastHandshakeTime.IsZero = false) (hT : p.LastHandshakeTime.Unix = T)
    (hrange : T.natAbs ≤ 2 ^ 53) :
    (Collect (New m) (DeviceResult.success d)).sent[3 * i + 2]? =
      some (Metric.const descHandshake ValueType.GaugeValue T
        [d.Name, p.PublicKey.String, (New m).peerNames.index p.PublicKey.String]) := by
  rw [sent_getElem? m d i 2 p hp (by decide)]
  simp [peerSamples, peerLabels, handshakeValue, hset, hT, float64OfInt64_exact T hrange,
    New_handshake]

/-- C4 (witness): scenario peer P2, handshake at 1700000000. -/
theorem handshake_gauge_exact_within_two_pow_53_witness :
    (Collect (New (some scenarioNames)) (DeviceResult.success scenarioDevice)).sent[3 * 1 + 2]? =
      some (Metric.const descHandshake ValueType.GaugeValue 1700000000
        [scenarioDevice.Name, peerP2.PublicKey.String,
          (New (some scenarioNames)).peerNames.index peerP2.PublicKey.String]) :=
  handshake_gauge_exact_within_two_pow_53 (some scenarioNames) scenarioDevice 1 peerP2
    1700000000 (by decide) (by decide) (by decide) (by decide)

/-- C5: for every peer of a successful snapshot whose last handshake time is
the zero time, the third sample `Collect` sends for that peer is a sample (not
a marker) on the last-handshake descriptor, of gauge kind, with value exactly
`0`. -/
theorem never_handshaked_gauge_is_zero (m : Option GoMap) (d : Device) (i : Nat) (p : Peer)
    (hp : d.Peers[i]? = some p) (hzero : p.LastHandshakeTime.IsZero = true) :
    (Collect (New m) (DeviceResult.success d)).sent[3 * i + 2]? =
      some (Metric.const descHandshake ValueType.GaugeValue 0
        [d.Name, p.PublicKey.String, (New m).peerNames.index p.PublicKey.String]) := by
  rw [sent_getElem? m d i 2 p hp (by decide)]
  simp [peerSamples, peerLabels, handshakeValue, hzero, New_handshake]

/-- C5 (witness): scenario peer P1, never handshaked. -/
theorem never_handshaked_gauge_is_zero_witness :
    (Collect (New (some scenarioNames)) (DeviceResult.success scenarioDevice)).sent[3 * 0 + 2]? =
      some (Metric.const descHandshake ValueType.GaugeValue 0
        [scenarioDevice.Name, peerP1.PublicKey.String,
          (New (some scenarioNames)).peerNames.index peerP1.PublicKey.String]) :=
  never_handshaked_gauge_is_zero (some scenarioNames) scenarioDevice 0 peerP1
    (by decide) (by decide)

/-- C6: for every collector built by `New` and every peer of a successful
snapshot, `Collect` returns normally without sending any invalid-metric
marker, and the three samples of the peer carry the labels (device name, key
string, name), where the name is the empty string when the key string is not
a key of the collector's name map and the mapped name when it is. -/
theorem peer_name_label_is_mapped_name_or_empty (m : Option GoMap) (d : Device) (i : Nat)
    (p : Peer) (hp : d.Peers[i]? = some p) :
    (Collect (New m) (DeviceResult.success d)).exit = Exit.returned ∧
    (∀ x ∈ (Collect (New m) (DeviceResult.success d)).sent, x.isInvalid = false) ∧
    ((New m).peerNames.lookup p.PublicKey.String = none →
      ∀ j, j < 3 →
        ((Collect (New m) (DeviceResult.success d)).sent[3 * i + j]?).map
          (fun x => (x.isInvalid, x.labelValues)) =
          some (false, [d.Name, p.PublicKey.String, ""])) ∧
    (∀ v, (New m).peerNames.lookup p.PublicKey.String = some v →
      ∀ j, j < 3 →
        ((Collect (New m) (DeviceResult.success d)).sent[3 * i + j]?).map
          (fun x => (x.isInvalid, x.labelValues)) =
          some (false, [d.Name, p.PublicKey.String, v])) := by
  have hidx : ∀ j, j < 3 →
      ((Collect (New m) (DeviceResult.success d)).sent[3 * i + j]?).map
        (fun x => (x.isInvalid, x.labelValues)) =
        some (false, [d.Name, p.PublicKey.String,
          (New m).peerNames.index p.PublicKey.String]) := by
    intro j hj
    rw [sent_getElem? m d i j p hp hj]
    rcases j with _ | _ | _ | j
    · simp [peerSamples, peerLabels, Metric.isInvalid, Metric.labelValues]
    · simp [peerSamples, peerLabels, Metric.isInvalid, Metric.labelValues]
    · simp [peerSamples, peerLabels, Metric.isInvalid, Metric.labelValues]
    · omega
  refine ⟨by rw [Collect_New_success], ?_, ?_, ?_⟩
  · intro x hx
    obtain ⟨q, _, hxq⟩ := mem_sent_success m d x hx
    simp only [peerSamples, List.mem_cons, List.mem_singleton, List.not_mem_nil, or_false] at hxq
    rcases hxq with h | h | h <;> rw [h] <;> rfl
  · intro hnone j hj
    rw [hidx j hj]
    simp [GoMap.index, hnone]
  · intro v hv j hj
    rw [hidx j hj]
    simp [GoMap.index, hv]

/-- C6 (witness): scenario peer P1 with the scenario name map. -/
theorem peer_name_label_is_mapped_name_or_empty_witness :
    ((Collect (New (some scenarioNames)) (DeviceResult.success scenarioDevice)).sent[3 * 0 + 1]?).map
      (fun x => (x.isInvalid, x.labelValues)) =
      some (false, [scenarioDevice.Name, peerP1.PublicKey.String, "Cluster-0"]) :=
  (peer_name_label_is_mapped_name_or_empty (some scenarioNames) scenarioDevice 0 peerP1
    (by decide)).2.2.2 "Cluster-0" (by decide) 1 (by decide)

/-- C7: a collector built by `New` from a nil name map is the collector built
from an empty name map; for every query result the two `Collect` runs are
equal, and every sample sent has the empty string as its `peer_name` label. -/
theorem nil_name_map_is_empty_name_map :
    New none = New (some []) ∧
    ∀ q : DeviceResult,
      Collect (New none) q = Collect (New (some [])) q ∧
      ∀ x ∈ (Collect (New none) q).sent, x.isInvalid = false → x.labelValues[2]? = some "" := by
  refine ⟨rfl, fun q => ⟨rfl, ?_⟩⟩
  intro x hx hv
  rw [Collect_New] at hx
  rcases q with ⟨dev, err⟩
  have hmark : ∀ e, x ∈ errorMarkers (New none) e → False := by
    intro e he
    simp only [errorMarkers, List.mem_cons, List.mem_singleton, List.not_mem_nil,
      or_false] at he
    rcases he with h | h | h <;> rw [h] at hv <;> simp [Metric.isInvalid] at hv
  have hpeer : ∀ d : Device, x ∈ d.Peers.flatMap (peerSamples (New none) d) →
      x.labelValues[2]? = some "" := by
    intro d hd
    simp only [List.mem_flatMap] at hd
    obtain ⟨p, _, hxp⟩ := hd
    simp only [peerSamples, List.mem_cons, List.mem_singleton, List.not_mem_nil,
      or_false] at hxp
    have hn : (New none).peerNames = [] := rfl
    rcases hxp with h | h | h <;> rw [h] <;>
      simp [Metric.labelValues, peerLabels, hn, GoMap.index]
  cases dev with
  | none =>
    cases err with
    | none => simp at hx
    | some e => exact absurd (by simpa using hx) (hmark e)
  | some d =>
    cases err with
    | none => exact hpeer d (by simpa using hx)
    | some e =>
      simp only [List.mem_append] at hx
      rcases hx with h | h
      · exact absurd h (hmark e)
      · exact hpeer d h

/-- C8: `Collect` leaves the collector unchanged, and a second call that
observes the same query result has the same run as the first: the same
metrics in the same order and the same exit. -/
theorem collect_is_repeatable (c : collector) (q : DeviceResult) :
    (Collect c q).self = c ∧
    Collect (Collect c q).self q = Collect c q ∧
    (Collect (Collect c q).self q).sent = (Collect c q).sent := by
  have h : (Collect c q).self = c := by
    unfold Collect
    cases q.device <;> rfl
  exact ⟨h, by rw [h], by rw [h]⟩

/-- C9: for every collector built by `New`, `Describe` leaves the collector
unchanged and sends exactly its three descriptors, in the order receive bytes,
transmit bytes, last handshake, with the three metric names and each with the
label schema `[device, public_key, peer_name]`; the markers of a failed query
carry these descriptors in this order, the `j`-th sample of every peer carries
the `j`-th of them, and every metric `Collect` sends carries one of them. -/
theorem describe_sends_the_three_descriptors (m : Option GoMap) :
    (Describe (New m)).1 = New m ∧
    (Describe (New m)).2 =
      [(New m).PeerReceiveBytes, (New m).PeerTransmitBytes, (New m).PeerLastHandshake] ∧
    (Describe (New m)).2.map Desc.fqName =
      ["wireguard_peer_receive_bytes_total", "wireguard_peer_transmit_bytes_total",
       "wireguard_peer_last_handshake_seconds"] ∧
    (Describe (New m)).2.map Desc.variableLabels =
      [["device", "public_key", "peer_name"], ["device", "public_key", "peer_name"],
       ["device", "public_key", "peer_name"]] ∧
    (∀ e : GoError,
      (Collect (New m) (DeviceResult.failure e)).sent.map Metric.desc = (Describe (New m)).2) ∧
    (∀ (d : Device) (i j : Nat), i < d.Peers.length → j < 3 →
      ((Collect (New m) (DeviceResult.success d)).sent[3 * i + j]?).map Metric.desc =
        (Describe (New m)).2[j]?) ∧
    (∀ (q : DeviceResult), ∀ x ∈ (Collect (New m) q).sent, x.desc ∈ (Describe (New m)).2) := by
  have hD : (Describe (New m)).2 =
      [(New m).PeerReceiveBytes, (New m).PeerTransmitBytes, (New m).PeerLastHandshake] := rfl
  have hmark : ∀ e, (errorMarkers (New m) e).map Metric.desc = (Describe (New m)).2 := by
    intro e; rfl
  have hsamp : ∀ (d : Device) (p : Peer),
      (peerSamples (New m) d p).map Metric.desc = (Describe (New m)).2 := by
    intro d p; rfl
  refine ⟨rfl, hD, ?_, ?_, ?_, ?_, ?_⟩
  · rw [hD, New_receive, New_transmit, New_handshake]; rfl
  · rw [hD, New_receive, New_transmit, New_handshake]; rfl
  · intro e
    rw [Collect_New_failure]
    exact hmark e
  · intro d i j hi hj
    rw [sent_getElem? m d i j d.Peers[i] (List.getElem?_eq_getElem hi) hj, ← hsamp d d.Peers[i],
      List.getElem?_map]
  · intro q x hx
    have hm : ∀ e, x ∈ errorMarkers (New m) e → x.desc ∈ (Describe (New m)).2 := by
      intro e he
      rw [← hmark e]
      exact List.mem_map_of_mem _ he
    have hp : ∀ d : Device, x ∈ d.Peers.flatMap (peerSamples (New m) d) →
        x.desc ∈ (Describe (New m)).2 := by
      intro d hd
      simp only [List.mem_flatMap] at hd
      obtain ⟨p, _, hxp⟩ := hd
      rw [← hsamp d p]
      exact List.mem_map_of_mem _ hxp
    rw [Collect_New] at hx
    rcases q with ⟨dev, err⟩
    cases dev with
    | none =>
      cases err with
      | none => simp at hx
      | some e => exact hm e (by simpa using hx)
    | some d =>
      cases err with
      | none => exact hp d (by simpa using hx)
      | some e =>
        simp only [List.mem_append] at hx
        rcases hx with h | h
        · exact hm e h
        · exact hp d h

/-- C10: for every peer list with pairwise distinct public keys, the name map
built at startup has exactly as many entries as there are peers, its keys are
the key strings of the peers, and it maps the key string of the `i`-th peer
(counting from 0) to `Cluster-i` in decimal. -/
theorem startup_names_are_cluster_indices (peers : List Peer)
    (hdistinct : (peers.map (fun p => p.PublicKey)).Nodup) :
    (buildPeerNames peers).len = peers.length ∧
    (buildPeerNames peers).map Prod.fst = peers.map (fun p => p.PublicKey.String) ∧
    ∀ (i : Nat) (p : Peer), peers[i]? = some p →
      (buildPeerNames peers).lookup p.PublicKey.String = some ("Cluster-" ++ toString i) ∧
      (buildPeerNames peers).index p.PublicKey.String = "Cluster-" ++ toString i := by
  rw [buildPeerNames_eq peers hdistinct]
  have hkeys := namedEntries_keys peers 0
  refine ⟨?_, hkeys, ?_⟩
  · have := congrArg List.length hkeys
    simpa [GoMap.len] using this
  · intro i p hp
    have hl := lookup_namedEntries peers 0 i p (nodup_keyStrings peers hdistinct) hp
    rw [Nat.zero_add] at hl
    exact ⟨hl, by simp [GoMap.index, hl]⟩

/-- C10 (witness): the two scenario peers are named `Cluster-0`, `Cluster-1`. -/
theorem startup_names_are_cluster_indices_witness :
    (buildPeerNames [peerP1, peerP2]).len = 2 ∧
    (buildPeerNames [peerP1, peerP2]).index peerP2.PublicKey.String = "Cluster-1" :=
  ⟨(startup_names_are_cluster_indices [peerP1, peerP2] (by decide)).1,
   ((startup_names_are_cluster_indices [peerP1, peerP2] (by decide)).2.2 1 peerP2
      (by decide)).2⟩

end WireguardExporter
